import Mathlib

/-!
Verification of the knowledge-graph store and its live-sync client.

The development shallowly embeds `src/manager/KnowledgeGraphManager.ts`
(graph CRUD and search over a JSONL file), the durable-record codec the
manager uses (`JSON.stringify` / `JSON.parse` restricted to the record
shapes the store reads and writes), and the reconciliation step of the
viewer in `src/server/visualize.ts` (`updateGraph`).

Conventions: JavaScript arrays become `List`, `string` becomes `String`,
thrown exceptions become `Except String`, and the durable file becomes an
explicit `FileState` value threaded through load/save.
-/

namespace KB

/-- An entity record: `name`, `entityType`, `observations`
(`src/types`, used by `KnowledgeGraphManager`). -/
structure Entity where
  name : String
  entityType : String
  observations : List String
deriving DecidableEq, Repr

/-- A relation record: directed edge `from` → `to` labelled `relationType`. -/
structure Relation where
  «from» : String
  «to» : String
  relationType : String
deriving DecidableEq, Repr

/-- The in-memory graph: a list of entities plus a list of relations,
exactly as `KnowledgeGraph` in the source. -/
structure KnowledgeGraph where
  entities : List Entity
  relations : List Relation
deriving DecidableEq, Repr

/-- One `addObservations` input entry (`ObservationInput` in the source). -/
structure ObservationInput where
  entityName : String
  contents : List String
deriving DecidableEq, Repr

/-- One `addObservations` result entry (`ObservationResult` in the source). -/
structure ObservationResult where
  entityName : String
  addedObservations : List String
deriving DecidableEq, Repr

/-- The empty graph `{ entities: [], relations: [] }`. -/
def emptyGraph : KnowledgeGraph := ⟨[], []⟩

/-- `createEntities`: keep only input entities whose `name` does not occur in
the loaded graph, append the survivors, and return them
(`KnowledgeGraphManager.createEntities`). -/
def createEntities (entities : List Entity) (g : KnowledgeGraph) :
    KnowledgeGraph × List Entity :=
  let newEntities := entities.filter (fun e =>
    !(g.entities.any (fun existingEntity => existingEntity.name == e.name)))
  ({ g with entities := g.entities ++ newEntities }, newEntities)

/-- `createRelations`: keep only input relations whose full
`(from, to, relationType)` triple does not occur in the loaded graph,
append the survivors, and return them. -/
def createRelations (relations : List Relation) (g : KnowledgeGraph) :
    KnowledgeGraph × List Relation :=
  let newRelations := relations.filter (fun r =>
    !(g.relations.any (fun existingRelation =>
      existingRelation.«from» == r.«from» &&
      existingRelation.«to» == r.«to» &&
      existingRelation.relationType == r.relationType)))
  ({ g with relations := g.relations ++ newRelations }, newRelations)

/-- Append `newObs` to the observations of the first entity named `n`;
models the in-place `entity.observations.push(...)` on the entity returned
by `graph.entities.find`. -/
def updateFirstEntity : List Entity → String → List String → List Entity
  | [], _, _ => []
  | e :: es, n, newObs =>
    if e.name == n then { e with observations := e.observations ++ newObs } :: es
    else e :: updateFirstEntity es n newObs

/-- `addObservations`: process the input entries in order; for each, find the
entity by name (throwing `Entity with name … not found` when absent), compute
the contents not already present in its observation list, and append them.
The thrown exception aborts the whole call before any save. -/
def addObservations : List ObservationInput → KnowledgeGraph →
    Except String (KnowledgeGraph × List ObservationResult)
  | [], g => .ok (g, [])
  | o :: rest, g =>
    match g.entities.find? (fun e => e.name == o.entityName) with
    | none => .error ("Entity with name " ++ o.entityName ++ " not found")
    | some e =>
      let newObservations := o.contents.filter (fun content =>
        !(e.observations.contains content))
      match addObservations rest
          { g with entities := updateFirstEntity g.entities o.entityName newObservations } with
      | .error msg => .error msg
      | .ok (g', results) =>
        .ok (g', ⟨o.entityName, newObservations⟩ :: results)

/-- `deleteEntities`: drop every entity whose name is in `entityNames` and
every relation one of whose endpoints is in `entityNames`. -/
def deleteEntities (entityNames : List String) (g : KnowledgeGraph) :
    KnowledgeGraph :=
  { entities := g.entities.filter (fun e => !(entityNames.contains e.name)),
    relations := g.relations.filter (fun r =>
      !(entityNames.contains r.«from») && !(entityNames.contains r.«to»)) }

/-- JavaScript `s.toLowerCase()`, on the character list of `s`. -/
def jsToLower (s : String) : List Char := s.toList.map Char.toLower

/-- JavaScript `a.includes(b)` on strings: `b` occurs contiguously in `a`. -/
def jsIncludes (a b : List Char) : Bool := decide (b <:+: a)

/-- Case-insensitive match of `searchNodes`: the lowered query occurs in the
lowered `name`, `entityType`, or some lowered observation. -/
def entityMatches (query : String) (e : Entity) : Bool :=
  jsIncludes (jsToLower e.name) (jsToLower query) ||
  jsIncludes (jsToLower e.entityType) (jsToLower query) ||
  e.observations.any (fun o => jsIncludes (jsToLower o) (jsToLower query))

/-- `searchNodes`: filter entities by `entityMatches`, then keep the relations
both of whose endpoints are names of the filtered entities. -/
def searchNodes (query : String) (g : KnowledgeGraph) : KnowledgeGraph :=
  let filteredEntities := g.entities.filter (entityMatches query)
  let filteredEntityNames := filteredEntities.map (fun e => e.name)
  { entities := filteredEntities,
    relations := g.relations.filter (fun r =>
      filteredEntityNames.contains r.«from» && filteredEntityNames.contains r.«to») }

/-- `openNodes`: filter entities by membership of their name in `names`, then
keep the relations both of whose endpoints are names of the filtered entities. -/
def openNodes (names : List String) (g : KnowledgeGraph) : KnowledgeGraph :=
  let filteredEntities := g.entities.filter (fun e => names.contains e.name)
  let filteredEntityNames := filteredEntities.map (fun e => e.name)
  { entities := filteredEntities,
    relations := g.relations.filter (fun r =>
      filteredEntityNames.contains r.«from» && filteredEntityNames.contains r.«to») }

/-- Durable effect of one manager call: the stored graph becomes the graph the
call saves on success, and stays untouched when the call throws before
`saveGraph` (every manager method defers `saveGraph` past all mutation). -/
def runStore {α : Type} (op : KnowledgeGraph → Except String (KnowledgeGraph × α))
    (stored : KnowledgeGraph) : KnowledgeGraph :=
  match op stored with
  | .ok (g, _) => g
  | .error _ => stored

/-- No two entities of the graph share a `name` (§3 invariant). -/
def NamesNodup (g : KnowledgeGraph) : Prop :=
  (g.entities.map (fun e => e.name)).Nodup

/-- No two relations of the graph share the full triple (§3 invariant). -/
def TriplesNodup (g : KnowledgeGraph) : Prop :=
  (g.relations.map (fun r => (r.«from», r.«to», r.relationType))).Nodup

/-- Every entity's observation list is duplicate-free (§3 invariant). -/
def ObsNodup (g : KnowledgeGraph) : Prop :=
  ∀ e ∈ g.entities, e.observations.Nodup

instance (g : KnowledgeGraph) : Decidable (NamesNodup g) := by
  unfold NamesNodup; infer_instance

instance (g : KnowledgeGraph) : Decidable (TriplesNodup g) := by
  unfold TriplesNodup; infer_instance

instance (g : KnowledgeGraph) : Decidable (ObsNodup g) := by
  unfold ObsNodup; infer_instance

/-! ### Helper lemmas about the manager operations -/

theorem updateFirstEntity_map_name (es : List Entity) (n : String) (obs : List String) :
    (updateFirstEntity es n obs).map Entity.name = es.map Entity.name := by
  induction es with
  | nil => rfl
  | cons e es ih =>
    simp only [updateFirstEntity]
    by_cases h : (e.name == n) = true
    · simp [h]
    · simp [h, ih]

theorem addObservations_error_of_missing :
    ∀ (inputs : List ObservationInput) (g : KnowledgeGraph),
    (∃ o ∈ inputs, ∀ e ∈ g.entities, e.name ≠ o.entityName) →
    ∃ o ∈ inputs, (∀ e ∈ g.entities, e.name ≠ o.entityName) ∧
      addObservations inputs g =
        .error ("Entity with name " ++ o.entityName ++ " not found")
  | [], _, h => by simp at h
  | o :: rest, g, h => by
    cases hf : g.entities.find? (fun e => e.name == o.entityName) with
    | none =>
      refine ⟨o, List.mem_cons_self o rest, ?_, ?_⟩
      · intro e he
        have := List.find?_eq_none.mp hf e he
        simpa using this
      · simp [addObservations, hf]
    | some e =>
      have hememb : e ∈ g.entities := List.mem_of_find?_eq_some hf
      have hename : e.name = o.entityName := by
        have := List.find?_some hf
        simpa using this
      obtain ⟨o₀, ho₀mem, ho₀miss⟩ := h
      have ho₀rest : o₀ ∈ rest := by
        rcases List.mem_cons.mp ho₀mem with rfl | hr
        · exact absurd hename (ho₀miss e hememb)
        · exact hr
      set g₁ : KnowledgeGraph :=
        ⟨updateFirstEntity g.entities o.entityName
          (o.contents.filter (fun content => !(e.observations.contains content))),
         g.relations⟩ with hg₁
      have hnames : g₁.entities.map Entity.name = g.entities.map Entity.name :=
        updateFirstEntity_map_name _ _ _
      have hmiss₁ : ∀ e' ∈ g₁.entities, e'.name ≠ o₀.entityName := by
        intro e' he'
        have : e'.name ∈ g.entities.map Entity.name := by
          rw [← hnames]; exact List.mem_map_of_mem Entity.name he'
        obtain ⟨e'', he''mem, he''eq⟩ := List.mem_map.mp this
        rw [← he''eq]
        exact ho₀miss e'' he''mem
      obtain ⟨o', ho'rest, ho'miss₁, herr⟩ :=
        addObservations_error_of_missing rest g₁ ⟨o₀, ho₀rest, hmiss₁⟩
      refine ⟨o', List.mem_cons_of_mem o ho'rest, ?_, ?_⟩
      · intro e' he'
        have : e'.name ∈ g₁.entities.map Entity.name := by
          rw [hnames]; exact List.mem_map_of_mem Entity.name he'
        obtain ⟨e'', he''mem, he''eq⟩ := List.mem_map.mp this
        rw [← he''eq]
        exact ho'miss₁ e'' he''mem
      · simp only [addObservations, hf]
        rw [← hg₁, herr]

/-! ### C1: addObservations fails atomically on a missing entity -/

/-- C1: if some entry of an `addObservations` batch names an entity absent
from the loaded graph, the call fails with the `Entity with name … not found`
error, and the durable store is unchanged — no observation from any entry of
the batch, including entries preceding the failing one, is committed. -/
theorem addObservations_missing_entity_atomic
    (inputs : List ObservationInput) (g : KnowledgeGraph)
    (h : ∃ o ∈ inputs, ∀ e ∈ g.entities, e.name ≠ o.entityName) :
    (∃ o ∈ inputs, (∀ e ∈ g.entities, e.name ≠ o.entityName) ∧
      addObservations inputs g =
        .error ("Entity with name " ++ o.entityName ++ " not found")) ∧
    runStore (addObservations inputs) g = g := by
  obtain ⟨o, hmem, hmiss, herr⟩ := addObservations_error_of_missing inputs g h
  refine ⟨⟨o, hmem, hmiss, herr⟩, ?_⟩
  unfold runStore
  rw [herr]

/-- Witness for C1: a two-entry batch whose second entry names the absent
entity "ghost" against a store holding only "A" errors and commits nothing. -/
theorem addObservations_missing_entity_atomic_witness :
    (∃ o ∈ ([⟨"A", ["ok"]⟩, ⟨"ghost", ["x"]⟩] : List ObservationInput),
      ∀ e ∈ (⟨[⟨"A", "t", []⟩], []⟩ : KnowledgeGraph).entities,
        e.name ≠ o.entityName) ∧
    runStore (addObservations [⟨"A", ["ok"]⟩, ⟨"ghost", ["x"]⟩])
      ⟨[⟨"A", "t", []⟩], []⟩ = ⟨[⟨"A", "t", []⟩], []⟩ :=
  ⟨by decide,
   (addObservations_missing_entity_atomic _ _ (by decide)).2⟩

/-! ### C2: uniqueness invariants under createEntities / createRelations -/

/-- Counterexample to C2: a batch holding two entities that share the name
"A" (and a batch holding the same relation triple twice) makes the create
calls break the uniqueness invariants on a previously duplicate-free graph:
the dedup filter only checks the loaded graph, not the batch itself. -/
theorem create_batch_dup_counterexample :
    NamesNodup emptyGraph ∧ TriplesNodup emptyGraph ∧
    ¬ NamesNodup (createEntities [⟨"A", "t", []⟩, ⟨"A", "u", []⟩] emptyGraph).1 ∧
    ¬ TriplesNodup (createRelations [⟨"A", "B", "r"⟩, ⟨"A", "B", "r"⟩] emptyGraph).1 := by
  decide

/-- C2 as amended: `createEntities` and `createRelations` preserve the
uniqueness invariants for every input batch that itself contains no two
entries with the same name (resp. the same `(from, to, relationType)`
triple); a batch with internal duplicates appends each of them. -/
theorem create_preserves_uniqueness
    (es : List Entity) (rs : List Relation) (g : KnowledgeGraph)
    (hn : NamesNodup g) (ht : TriplesNodup g)
    (hbe : (es.map Entity.name).Nodup)
    (hbr : (rs.map (fun r => (r.«from», r.«to», r.relationType))).Nodup) :
    NamesNodup (createEntities es g).1 ∧ TriplesNodup (createRelations rs g).1 := by
  constructor
  · show (((createEntities es g).1.entities).map Entity.name).Nodup
    simp only [createEntities, List.map_append, List.nodup_append]
    refine ⟨hn, ?_, ?_⟩
    · exact List.Nodup.sublist ((List.filter_sublist es).map Entity.name) hbe
    · intro a ha hb
      obtain ⟨e, hemem, heeq⟩ := List.mem_map.mp hb
      obtain ⟨ex, hexmem, hexeq⟩ := List.mem_map.mp ha
      rw [List.mem_filter] at hemem
      have : ¬ ∃ x ∈ g.entities, (x.name == e.name) = true := by
        simpa [List.any_eq_true] using hemem.2
      exact this ⟨ex, hexmem, by simp [hexeq, heeq]⟩
  · show (((createRelations rs g).1.relations).map
      (fun r => (r.«from», r.«to», r.relationType))).Nodup
    simp only [createRelations, List.map_append, List.nodup_append]
    refine ⟨ht, ?_, ?_⟩
    · exact List.Nodup.sublist ((List.filter_sublist rs).map _) hbr
    · intro a ha hb
      obtain ⟨r, hrmem, hreq⟩ := List.mem_map.mp hb
      obtain ⟨rx, hrxmem, hrxeq⟩ := List.mem_map.mp ha
      rw [List.mem_filter] at hrmem
      have : ¬ ∃ x ∈ g.relations,
          (x.«from» == r.«from» && (x.«to» == r.«to» && x.relationType == r.relationType)) = true := by
        simpa [List.any_eq_true, Bool.and_assoc] using hrmem.2
      refine this ⟨rx, hrxmem, ?_⟩
      have h1 : rx.«from» = r.«from» := by
        have := congrArg Prod.fst hrxeq
        have h2 := congrArg Prod.fst hreq
        simp at this h2
        rw [this, h2]
      have h2 : rx.«to» = r.«to» := by
        have := congrArg (fun p => p.2.1) hrxeq
        have h2 := congrArg (fun p => p.2.1) hreq
        simp at this h2
        rw [this, h2]
      have h3 : rx.relationType = r.relationType := by
        have := congrArg (fun p => p.2.2) hrxeq
        have h2 := congrArg (fun p => p.2.2) hreq
        simp at this h2
        rw [this, h2]
      simp [h1, h2, h3]

/-- Witness for C2 as amended: a duplicate-free two-entity, one-relation
batch against the empty graph keeps both invariants. -/
theorem create_preserves_uniqueness_witness :
    NamesNodup (createEntities [⟨"A", "t", []⟩, ⟨"B", "u", []⟩] emptyGraph).1 ∧
    TriplesNodup (createRelations [⟨"A", "B", "knows"⟩] emptyGraph).1 :=
  create_preserves_uniqueness _ _ _ (by decide) (by decide) (by decide) (by decide)

/-! ### C3: observation dedup within one addObservations call -/

/-- Update of the first matching entity keeps all observation lists
duplicate-free, provided the appended strings are duplicate-free and absent
from the found entity's current observations. -/
theorem updateFirstEntity_obsNodup (es : List Entity) (n : String)
    (newObs : List String) (e₀ : Entity)
    (h : ∀ e ∈ es, e.observations.Nodup)
    (hfind : es.find? (fun e => e.name == n) = some e₀)
    (hnew : newObs.Nodup) (hdisj : ∀ c ∈ newObs, c ∉ e₀.observations) :
    ∀ e ∈ updateFirstEntity es n newObs, e.observations.Nodup := by
  induction es with
  | nil => simp [updateFirstEntity]
  | cons e es ih =>
    by_cases hc : (e.name == n) = true
    · have he₀ : e₀ = e := by
        rw [List.find?_cons] at hfind
        simp only [hc] at hfind
        exact (Option.some_inj.mp hfind).symm
      intro x hx
      simp only [updateFirstEntity, if_pos hc] at hx
      rcases List.mem_cons.mp hx with rfl | hxs
      · refine List.nodup_append.mpr ⟨h e (List.mem_cons_self e es), hnew, ?_⟩
        intro a ha hb
        exact hdisj a hb (he₀ ▸ ha)
      · exact h x (List.mem_cons_of_mem e hxs)
    · have hfind' : es.find? (fun e => e.name == n) = some e₀ := by
        rw [List.find?_cons] at hfind
        rw [Bool.not_eq_true] at hc
        simpa [hc] using hfind
      intro x hx
      simp only [updateFirstEntity, if_neg hc] at hx
      rcases List.mem_cons.mp hx with rfl | hxs
      · exact h x (List.mem_cons_self x es)
      · exact ih (fun e' he' => h e' (List.mem_cons_of_mem e he')) hfind' x hxs

/-- Counterexample to C3: `addObservations` with contents `["x","x","y"]`
against entity "A" with no prior observations stores `["x","x","y"]` — the
repeated "x" is appended twice, because the dedup filter compares only
against the observations present before the call. -/
theorem addObservations_intra_batch_dup_counterexample :
    addObservations [⟨"A", ["x", "x", "y"]⟩] ⟨[⟨"A", "t", []⟩], []⟩
      = .ok (⟨[⟨"A", "t", ["x", "x", "y"]⟩], []⟩, [⟨"A", ["x", "x", "y"]⟩]) ∧
    ¬ ObsNodup (runStore (addObservations [⟨"A", ["x", "x", "y"]⟩])
        ⟨[⟨"A", "t", []⟩], []⟩) :=
  ⟨by rfl, by decide⟩

/-- C3 as amended: `addObservations` skips content strings already present in
the entity's observations but appends every occurrence from the contents list
itself; hence the entity's observation list stays duplicate-free whenever each
entry's contents list has no internal duplicates (and the graph's observation
lists were duplicate-free before the call). -/
theorem addObservations_preserves_obs_nodup :
    ∀ (inputs : List ObservationInput) (g g' : KnowledgeGraph)
      (res : List ObservationResult),
    ObsNodup g → (∀ i ∈ inputs, i.contents.Nodup) →
    addObservations inputs g = .ok (g', res) → ObsNodup g'
  | [], g, g', res, hg, _, hok => by
    simp only [addObservations, Except.ok.injEq, Prod.mk.injEq] at hok
    rw [← hok.1]
    exact hg
  | o :: rest, g, g', res, hg, hc, hok => by
    revert hok
    cases hf : g.entities.find? (fun e => e.name == o.entityName) with
    | none => simp [addObservations, hf]
    | some e =>
      simp only [addObservations, hf]
      set newObs := o.contents.filter (fun content =>
        !(e.observations.contains content)) with hnewObs
      set g₁ : KnowledgeGraph :=
        ⟨updateFirstEntity g.entities o.entityName newObs, g.relations⟩ with hg₁
      cases hrec : addObservations rest g₁ with
      | error msg => simp
      | ok p =>
        simp only [Except.ok.injEq, Prod.mk.injEq]
        intro hok
        have hg₁nodup : ObsNodup g₁ := by
          intro x hx
          refine updateFirstEntity_obsNodup g.entities o.entityName newObs e
            hg hf ?_ ?_ x hx
          · exact List.Nodup.sublist (List.filter_sublist _)
              (hc o (List.mem_cons_self o rest))
          · intro c hcmem
            have := (List.mem_filter.mp hcmem).2
            simpa using this
        have := addObservations_preserves_obs_nodup rest g₁ p.1 p.2 hg₁nodup
          (fun i hi => hc i (List.mem_cons_of_mem o hi)) (by rw [hrec])
        rw [← hok.1]
        exact this

/-- Witness for C3 as amended: adding the duplicate-free contents
`["x","y"]` to entity "A" holding `["z"]` keeps its observations
duplicate-free. -/
theorem addObservations_preserves_obs_nodup_witness :
    ObsNodup ⟨[⟨"A", "t", ["z", "x", "y"]⟩], []⟩ :=
  addObservations_preserves_obs_nodup [⟨"A", ["x", "y"]⟩]
    ⟨[⟨"A", "t", ["z"]⟩], []⟩ ⟨[⟨"A", "t", ["z", "x", "y"]⟩], []⟩
    [⟨"A", ["x", "y"]⟩] (by decide) (by decide) (by rfl)

/-! ### C4: deleteEntities removes entities and cascades to relations -/

/-- C4: `deleteEntities` removes exactly the entities whose name is listed
and every relation with a listed endpoint, leaves everything else unchanged,
treats absent names as a no-op (never an error), and afterward no surviving
relation references a deleted name. -/
theorem deleteEntities_spec (names : List String) (g : KnowledgeGraph) :
    (∀ e, e ∈ (deleteEntities names g).entities ↔
      e ∈ g.entities ∧ e.name ∉ names) ∧
    (∀ r, r ∈ (deleteEntities names g).relations ↔
      r ∈ g.relations ∧ r.«from» ∉ names ∧ r.«to» ∉ names) ∧
    (∀ r ∈ (deleteEntities names g).relations,
      r.«from» ∉ names ∧ r.«to» ∉ names) ∧
    ((∀ n ∈ names, ∀ e ∈ g.entities, e.name ≠ n) →
      (deleteEntities names g).entities = g.entities) := by
  have hent : ∀ e, e ∈ (deleteEntities names g).entities ↔
      e ∈ g.entities ∧ e.name ∉ names := by
    intro e
    simp [deleteEntities, List.mem_filter]
  have hrel : ∀ r, r ∈ (deleteEntities names g).relations ↔
      r ∈ g.relations ∧ r.«from» ∉ names ∧ r.«to» ∉ names := by
    intro r
    simp [deleteEntities, List.mem_filter]
  refine ⟨hent, hrel, ?_, ?_⟩
  · intro r hr
    exact ((hrel r).mp hr).2
  · intro h
    apply List.filter_eq_self.mpr
    intro e he
    simp only [Bool.not_eq_true']
    cases hcb : names.contains e.name
    · rfl
    · exfalso
      have hmem : e.name ∈ names := by simpa using hcb
      exact h e.name hmem e he rfl

/-- Witness for C4: the cascading-delete example — deleting "A" from a graph
with entities A, B and relation A→B. -/
theorem deleteEntities_spec_witness :
    (∀ e, e ∈ (deleteEntities ["A"]
        ⟨[⟨"A", "t", []⟩, ⟨"B", "t", []⟩], [⟨"A", "B", "r"⟩]⟩).entities ↔
      e ∈ [⟨"A", "t", []⟩, ⟨"B", "t", []⟩] ∧ e.name ∉ ["A"]) ∧
    (∀ r, r ∈ (deleteEntities ["A"]
        ⟨[⟨"A", "t", []⟩, ⟨"B", "t", []⟩], [⟨"A", "B", "r"⟩]⟩).relations ↔
      r ∈ [(⟨"A", "B", "r"⟩ : Relation)] ∧ r.«from» ∉ ["A"] ∧ r.«to» ∉ ["A"]) ∧
    (∀ r ∈ (deleteEntities ["A"]
        ⟨[⟨"A", "t", []⟩, ⟨"B", "t", []⟩], [⟨"A", "B", "r"⟩]⟩).relations,
      r.«from» ∉ ["A"] ∧ r.«to» ∉ ["A"]) ∧
    ((∀ n ∈ ["A"], ∀ e ∈ [(⟨"A", "t", []⟩ : Entity), ⟨"B", "t", []⟩], e.name ≠ n) →
      (deleteEntities ["A"]
        ⟨[⟨"A", "t", []⟩, ⟨"B", "t", []⟩], [⟨"A", "B", "r"⟩]⟩).entities =
        [⟨"A", "t", []⟩, ⟨"B", "t", []⟩]) :=
  deleteEntities_spec ["A"] ⟨[⟨"A", "t", []⟩, ⟨"B", "t", []⟩], [⟨"A", "B", "r"⟩]⟩

/-! ### C6: searchNodes matches entities and closes relations over matches -/

/-- C6: `searchNodes` returns exactly the entities where the lowered query
occurs in the lowered name, entityType, or some lowered observation, plus
exactly the relations both of whose endpoints are names of returned entities;
a relation whose target matched no entity is excluded regardless of its own
fields. -/
theorem searchNodes_spec (query : String) (g : KnowledgeGraph) :
    (∀ e, e ∈ (searchNodes query g).entities ↔ e ∈ g.entities ∧
      (jsToLower query <:+: jsToLower e.name ∨
       jsToLower query <:+: jsToLower e.entityType ∨
       ∃ o ∈ e.observations, jsToLower query <:+: jsToLower o)) ∧
    (∀ r, r ∈ (searchNodes query g).relations ↔ r ∈ g.relations ∧
      (∃ a ∈ (searchNodes query g).entities, a.name = r.«from») ∧
      (∃ b ∈ (searchNodes query g).entities, b.name = r.«to»)) ∧
    (∀ r ∈ g.relations,
      (∀ b ∈ (searchNodes query g).entities, b.name ≠ r.«to») →
      r ∉ (searchNodes query g).relations) := by
  have hrel : ∀ r, r ∈ (searchNodes query g).relations ↔ r ∈ g.relations ∧
      (∃ a ∈ (searchNodes query g).entities, a.name = r.«from») ∧
      (∃ b ∈ (searchNodes query g).entities, b.name = r.«to») := by
    intro r
    show r ∈ g.relations.filter _ ↔ _
    rw [List.mem_filter, Bool.and_eq_true]
    constructor
    · rintro ⟨hr, hf, ht⟩
      refine ⟨hr, ?_, ?_⟩
      · have : r.«from» ∈ (g.entities.filter (entityMatches query)).map Entity.name := by
          simpa using hf
        obtain ⟨a, ha, haeq⟩ := List.mem_map.mp this
        exact ⟨a, ha, haeq⟩
      · have : r.«to» ∈ (g.entities.filter (entityMatches query)).map Entity.name := by
          simpa using ht
        obtain ⟨b, hb, hbeq⟩ := List.mem_map.mp this
        exact ⟨b, hb, hbeq⟩
    · rintro ⟨hr, ⟨a, ha, haeq⟩, ⟨b, hb, hbeq⟩⟩
      refine ⟨hr, ?_, ?_⟩
      · have hmm : r.«from» ∈ (g.entities.filter (entityMatches query)).map Entity.name :=
          List.mem_map.mpr ⟨a, ha, haeq⟩
        simpa using hmm
      · have hmm : r.«to» ∈ (g.entities.filter (entityMatches query)).map Entity.name :=
          List.mem_map.mpr ⟨b, hb, hbeq⟩
        simpa using hmm
  refine ⟨?_, hrel, ?_⟩
  · intro e
    show e ∈ g.entities.filter (entityMatches query) ↔ _
    simp [List.mem_filter, entityMatches, jsIncludes, List.any_eq_true,
      or_assoc]
  · intro r hr hb hmem
    obtain ⟨-, -, b, hbmem, hbeq⟩ := (hrel r).mp hmem
    exact hb b hbmem hbeq

/-- Witness for C6: the §8 search-closure example — entity "A" matches
"engineer" by observation, "B" does not, and the A→B relation is excluded. -/
theorem searchNodes_spec_witness :
    (⟨"A", "person", ["an engineer here"]⟩ : Entity) ∈
      (searchNodes "engineer"
        ⟨[⟨"A", "person", ["an engineer here"]⟩, ⟨"B", "company", []⟩],
         [⟨"A", "B", "works_at"⟩]⟩).entities ∧
    (⟨"A", "B", "works_at"⟩ : Relation) ∉
      (searchNodes "engineer"
        ⟨[⟨"A", "person", ["an engineer here"]⟩, ⟨"B", "company", []⟩],
         [⟨"A", "B", "works_at"⟩]⟩).relations :=
  ⟨((searchNodes_spec "engineer"
      ⟨[⟨"A", "person", ["an engineer here"]⟩, ⟨"B", "company", []⟩],
       [⟨"A", "B", "works_at"⟩]⟩).1 _).mpr (by decide),
   (searchNodes_spec "engineer"
      ⟨[⟨"A", "person", ["an engineer here"]⟩, ⟨"B", "company", []⟩],
       [⟨"A", "B", "works_at"⟩]⟩).2.2 _ (by decide) (by decide)⟩

/-! ### C7: openNodes closes relations over returned entities, not the list -/

/-- Counterexample to C7: with only entity "A" stored and a dangling relation
A→B, `openNodes(["A","B"])` omits the relation even though both endpoint
names appear in the input list — the code closes over names of returned
entities, and "B" has no entity. -/
theorem openNodes_dangling_counterexample :
    (⟨"A", "B", "r"⟩ : Relation) ∈
      (⟨[⟨"A", "t", []⟩], [⟨"A", "B", "r"⟩]⟩ : KnowledgeGraph).relations ∧
    "A" ∈ ["A", "B"] ∧ "B" ∈ ["A", "B"] ∧
    (⟨"A", "B", "r"⟩ : Relation) ∉
      (openNodes ["A", "B"] ⟨[⟨"A", "t", []⟩], [⟨"A", "B", "r"⟩]⟩).relations := by
  decide

/-- C7 as amended: `openNodes` returns the entities whose name is in the
input list plus the relations whose both endpoints are names of *returned
entities*; a dangling relation is excluded when an endpoint, though listed,
has no corresponding entity. -/
theorem openNodes_spec (names : List String) (g : KnowledgeGraph) :
    (∀ e, e ∈ (openNodes names g).entities ↔
      e ∈ g.entities ∧ e.name ∈ names) ∧
    (∀ r, r ∈ (openNodes names g).relations ↔ r ∈ g.relations ∧
      (∃ a ∈ (openNodes names g).entities, a.name = r.«from») ∧
      (∃ b ∈ (openNodes names g).entities, b.name = r.«to»)) := by
  constructor
  · intro e
    show e ∈ g.entities.filter _ ↔ _
    simp [List.mem_filter]
  · intro r
    show r ∈ g.relations.filter _ ↔ _
    rw [List.mem_filter, Bool.and_eq_true]
    constructor
    · rintro ⟨hr, hf, ht⟩
      refine ⟨hr, ?_, ?_⟩
      · have : r.«from» ∈ (g.entities.filter
            (fun e => names.contains e.name)).map Entity.name := by
          simpa using hf
        obtain ⟨a, ha, haeq⟩ := List.mem_map.mp this
        exact ⟨a, ha, haeq⟩
      · have : r.«to» ∈ (g.entities.filter
            (fun e => names.contains e.name)).map Entity.name := by
          simpa using ht
        obtain ⟨b, hb, hbeq⟩ := List.mem_map.mp this
        exact ⟨b, hb, hbeq⟩
    · rintro ⟨hr, ⟨a, ha, haeq⟩, ⟨b, hb, hbeq⟩⟩
      refine ⟨hr, ?_, ?_⟩
      · have hmm : r.«from» ∈ (g.entities.filter
            (fun e => names.contains e.name)).map Entity.name :=
          List.mem_map.mpr ⟨a, ha, haeq⟩
        simpa using hmm
      · have hmm : r.«to» ∈ (g.entities.filter
            (fun e => names.contains e.name)).map Entity.name :=
          List.mem_map.mpr ⟨b, hb, hbeq⟩
        simpa using hmm

/-- Witness for C7 as amended: opening ["A","B"] on a store with entities A,
B and relation A→B returns both entities and the relation. -/
theorem openNodes_spec_witness :
    ((⟨"A", "t", []⟩ : Entity) ∈ (openNodes ["A", "B"]
      ⟨[⟨"A", "t", []⟩, ⟨"B", "t", []⟩], [⟨"A", "B", "r"⟩]⟩).entities) ∧
    ((⟨"A", "B", "r"⟩ : Relation) ∈ (openNodes ["A", "B"]
      ⟨[⟨"A", "t", []⟩, ⟨"B", "t", []⟩], [⟨"A", "B", "r"⟩]⟩).relations) :=
  ⟨((openNodes_spec ["A", "B"]
      ⟨[⟨"A", "t", []⟩, ⟨"B", "t", []⟩], [⟨"A", "B", "r"⟩]⟩).1 _).mpr (by decide),
   ((openNodes_spec ["A", "B"]
      ⟨[⟨"A", "t", []⟩, ⟨"B", "t", []⟩], [⟨"A", "B", "r"⟩]⟩).2 _).mpr (by decide)⟩

/-! ### The durable record codec

`saveGraph` writes each record with `JSON.stringify` and `loadGraph` reads
lines back with `JSON.parse`. The codec below models those built-ins on the
JSON fragment the store traffics in: strings, arrays of strings, and
one-level objects whose values are strings or arrays of strings (both record
shapes are of this form). Escapes follow `JSON.stringify`: the two-character
escapes for quote, backslash, newline, carriage return, tab, backspace and
form feed, and `\u00XX` for the remaining control characters. -/

/-- A field value of a durable record: a string or an array of strings. -/
inductive JVal where
  | str : String → JVal
  | arr : List String → JVal
deriving DecidableEq, Repr

/-- A parsed JSON object: its key/value list in source order. Duplicate keys
are kept; lookup takes the last, as `JSON.parse` does. -/
abbrev JObj := List (String × JVal)

/-- A parsed line: a top-level object, or a bare top-level value (on which
the loader's `item.type` test is `undefined` and never matches). -/
inductive JItem where
  | val : JVal → JItem
  | obj : JObj → JItem
deriving DecidableEq, Repr

/-- The hexadecimal digit character for `n < 16` (lowercase, as emitted by
`JSON.stringify`). -/
def hexDigitChar : Nat → Char
  | 0 => '0' | 1 => '1' | 2 => '2' | 3 => '3' | 4 => '4'
  | 5 => '5' | 6 => '6' | 7 => '7' | 8 => '8' | 9 => '9'
  | 10 => 'a' | 11 => 'b' | 12 => 'c' | 13 => 'd' | 14 => 'e' | _ => 'f'

/-- One character as `JSON.stringify` escapes it inside a string literal. -/
def escapeChar (c : Char) : List Char :=
  if c = '"' then ['\\', '"']
  else if c = '\\' then ['\\', '\\']
  else if c = '\n' then ['\\', 'n']
  else if c = '\r' then ['\\', 'r']
  else if c = '\t' then ['\\', 't']
  else if c = '\x08' then ['\\', 'b']
  else if c = '\x0c' then ['\\', 'f']
  else if c.toNat < 0x20 then
    ['\\', 'u', '0', '0', hexDigitChar (c.toNat / 16), hexDigitChar (c.toNat % 16)]
  else [c]

/-- The escaped characters of a string body. -/
def encodeChars : List Char → List Char
  | [] => []
  | c :: cs => escapeChar c ++ encodeChars cs

/-- A JSON string literal: quote, escaped body, quote. -/
def quoteStr (s : String) : List Char := '"' :: (encodeChars s.toList ++ ['"'])

/-- Continuation of an array after its first element: `,elem` pairs. -/
def emitElemsTail : List String → List Char
  | [] => []
  | s :: ss => ',' :: (quoteStr s ++ emitElemsTail ss)

/-- Array elements, comma-separated. -/
def emitElems : List String → List Char
  | [] => []
  | s :: ss => quoteStr s ++ emitElemsTail ss

/-- One field value. -/
def emitVal : JVal → List Char
  | .str s => quoteStr s
  | .arr xs => '[' :: (emitElems xs ++ [']'])

/-- One `key:value` field. -/
def emitField (kv : String × JVal) : List Char :=
  quoteStr kv.1 ++ ':' :: emitVal kv.2

/-- Continuation of an object after its first field: `,key:value` pairs. -/
def emitFieldsTail : JObj → List Char
  | [] => []
  | kv :: kvs => ',' :: (emitField kv ++ emitFieldsTail kvs)

/-- Object fields, comma-separated. -/
def emitFields : JObj → List Char
  | [] => []
  | kv :: kvs => emitField kv ++ emitFieldsTail kvs

/-- A whole record line, as `JSON.stringify` of the record object. -/
def emitObj (o : JObj) : List Char := '{' :: (emitFields o ++ ['}'])

/-- The value of a hexadecimal digit character. -/
def parseHexDigit (c : Char) : Option Nat :=
  if '0' ≤ c ∧ c ≤ '9' then some (c.toNat - '0'.toNat)
  else if 'a' ≤ c ∧ c ≤ 'f' then some (c.toNat - 'a'.toNat + 10)
  else if 'A' ≤ c ∧ c ≤ 'F' then some (c.toNat - 'A'.toNat + 10)
  else none

/-- The character named by a two-character escape. -/
def unescapeChar (e : Char) : Option Char :=
  if e = '"' then some '"'
  else if e = '\\' then some '\\'
  else if e = '/' then some '/'
  else if e = 'n' then some '\n'
  else if e = 'r' then some '\r'
  else if e = 't' then some '\t'
  else if e = 'b' then some '\x08'
  else if e = 'f' then some '\x0c'
  else none

/-- Parse a string-literal body up to the closing quote. Rejects raw control
characters and bad escapes, as `JSON.parse` does. Fuel-recursive; every step
consumes at least one input character, so `input.length < fuel` suffices. -/
def parseStrBodyF : Nat → List Char → Option (List Char × List Char)
  | 0, _ => none
  | fuel + 1, l =>
    match l with
    | [] => none
    | c :: rest =>
      if c = '"' then some ([], rest)
      else if c = '\\' then
        match rest with
        | [] => none
        | e :: rest2 =>
          if e = 'u' then
            match rest2 with
            | a :: b :: c2 :: d :: rest3 =>
              match parseHexDigit a, parseHexDigit b, parseHexDigit c2, parseHexDigit d with
              | some va, some vb, some vc, some vd =>
                (parseStrBodyF fuel rest3).map (fun p =>
                  (Char.ofNat (((va * 16 + vb) * 16 + vc) * 16 + vd) :: p.1, p.2))
              | _, _, _, _ => none
            | _ => none
          else
            match unescapeChar e with
            | some ch => (parseStrBodyF fuel rest2).map (fun p => (ch :: p.1, p.2))
            | none => none
      else if c.toNat < 0x20 then none
      else (parseStrBodyF fuel rest).map (fun p => (c :: p.1, p.2))

/-- Parse a string literal (opening quote onward). -/
def parseStringLitF (fuel : Nat) (l : List Char) : Option (String × List Char) :=
  match l with
  | '"' :: rest => (parseStrBodyF fuel rest).map (fun p => (String.mk p.1, p.2))
  | _ => none

/-- After one array element: a closing bracket, or a comma and further
elements. -/
def parseMoreElemsF : Nat → List Char → Option (List String × List Char)
  | 0, _ => none
  | fuel + 1, l =>
    match l with
    | ']' :: rest => some ([], rest)
    | ',' :: r =>
      match parseStringLitF fuel r with
      | some (s, r2) => (parseMoreElemsF fuel r2).map (fun p => (s :: p.1, p.2))
      | none => none
    | _ => none

/-- An array body (after the opening bracket). -/
def parseArrF (fuel : Nat) (l : List Char) : Option (List String × List Char) :=
  match l with
  | ']' :: rest => some ([], rest)
  | _ =>
    match parseStringLitF fuel l with
    | some (s, r) => (parseMoreElemsF fuel r).map (fun p => (s :: p.1, p.2))
    | none => none

/-- A field value: an array of strings or a string. -/
def parseValF (fuel : Nat) (l : List Char) : Option (JVal × List Char) :=
  match l with
  | '[' :: r => (parseArrF fuel r).map (fun p => (JVal.arr p.1, p.2))
  | _ => (parseStringLitF fuel l).map (fun p => (JVal.str p.1, p.2))

/-- One `key:value` field. -/
def parseFieldF (fuel : Nat) (l : List Char) : Option ((String × JVal) × List Char) :=
  match parseStringLitF fuel l with
  | some (k, r) =>
    match r with
    | ':' :: r2 => (parseValF fuel r2).map (fun p => ((k, p.1), p.2))
    | _ => none
  | none => none

/-- After one field: a closing brace, or a comma and further fields. -/
def parseMoreFieldsF : Nat → List Char → Option (JObj × List Char)
  | 0, _ => none
  | fuel + 1, l =>
    match l with
    | '}' :: rest => some ([], rest)
    | ',' :: r =>
      match parseFieldF fuel r with
      | some (kv, r2) => (parseMoreFieldsF fuel r2).map (fun p => (kv :: p.1, p.2))
      | none => none
    | _ => none

/-- An object body (after the opening brace). -/
def parseObjF (fuel : Nat) (l : List Char) : Option (JObj × List Char) :=
  match l with
  | '}' :: rest => some ([], rest)
  | _ =>
    match parseFieldF fuel l with
    | some (kv, r) => (parseMoreFieldsF fuel r).map (fun p => (kv :: p.1, p.2))
    | none => none

/-- `JSON.parse` of one line, on the modelled fragment: a top-level object or
a bare value consuming the entire line. -/
def parseLine (l : List Char) : Option JItem :=
  match l with
  | '{' :: r =>
    match parseObjF (l.length + 1) r with
    | some (o, []) => some (.obj o)
    | _ => none
  | _ =>
    match parseValF (l.length + 1) l with
    | some (v, []) => some (.val v)
    | _ => none

/-! ### The durable store: `loadGraph` and `saveGraph` -/

/-- The durable storage as `fs.readFile` presents it: absent (ENOENT),
failing with some other error (rethrown by `loadGraph`), or readable text. -/
inductive FileState where
  | missing : FileState
  | unreadable : String → FileState
  | content : List Char → FileState
deriving DecidableEq

/-- JavaScript `data.split("\n")`. -/
def jsSplitNl : List Char → List (List Char)
  | [] => [[]]
  | c :: rest =>
    if c = '\n' then [] :: jsSplitNl rest
    else
      match jsSplitNl rest with
      | [] => [[c]]
      | l :: ls => (c :: l) :: ls

/-- An ASCII whitespace character, as removed by `line.trim()`. -/
def isWsChar (c : Char) : Bool :=
  c.toNat = 9 || c.toNat = 10 || c.toNat = 11 || c.toNat = 12 ||
  c.toNat = 13 || c.toNat = 32

/-- JavaScript `line.trim()` on a character list. -/
def jsTrim (l : List Char) : List Char :=
  ((l.dropWhile isWsChar).reverse.dropWhile isWsChar).reverse

/-- Last-wins field lookup, as property access on a `JSON.parse` result. -/
def lookupField (o : JObj) (k : String) : Option JVal :=
  o.reverse.lookup k

/-- The unchecked `item as Entity` cast: a string field, with absent or
non-string fields becoming a default (the JS object carries `undefined`,
which no operation of the store ever distinguishes from a fresh value). -/
def getStr (o : JObj) (k : String) : String :=
  match lookupField o k with
  | some (.str s) => s
  | _ => ""

/-- The unchecked cast for the `observations` array field. -/
def getArr (o : JObj) (k : String) : List String :=
  match lookupField o k with
  | some (.arr xs) => xs
  | _ => []

/-- `item as Entity` on a parsed record object. -/
def toEntity (o : JObj) : Entity :=
  ⟨getStr o "name", getStr o "entityType", getArr o "observations"⟩

/-- `item as Relation` on a parsed record object. -/
def toRelation (o : JObj) : Relation :=
  ⟨getStr o "from", getStr o "to", getStr o "relationType"⟩

/-- One step of the load reduce: push the record onto `entities` if its tag
is `"entity"`, onto `relations` if it is `"relation"`; anything else — a
bare value (whose `type` is `undefined`) or an object with another tag —
leaves the graph untouched. -/
def applyItem (g : KnowledgeGraph) (item : JItem) : KnowledgeGraph :=
  match item with
  | .val _ => g
  | .obj o =>
    let g1 := if lookupField o "type" == some (.str "entity")
      then { g with entities := g.entities ++ [toEntity o] } else g
    if lookupField o "type" == some (.str "relation")
      then { g1 with relations := g1.relations ++ [toRelation o] } else g1

/-- The load reduce over the non-blank lines: `JSON.parse` each line,
propagating the first parse failure as the call's error. -/
def loadLines : List (List Char) → KnowledgeGraph → Except String KnowledgeGraph
  | [], g => .ok g
  | line :: rest, g =>
    match parseLine line with
    | none => .error "SyntaxError: Unexpected token in JSON"
    | some item => loadLines rest (applyItem g item)

/-- `loadGraph`: an absent file is an empty graph; any other read failure is
rethrown; otherwise split into lines, drop blank lines, and reduce. -/
def loadGraph (file : FileState) : Except String KnowledgeGraph :=
  match file with
  | .missing => .ok ⟨[], []⟩
  | .unreadable err => .error err
  | .content data =>
    loadLines ((jsSplitNl data).filter (fun line => !(jsTrim line).isEmpty)) ⟨[], []⟩

/-- The serialized entity record, field order as in `saveGraph`. -/
def entityRecord (e : Entity) : JObj :=
  [("type", .str "entity"), ("name", .str e.name),
   ("entityType", .str e.entityType), ("observations", .arr e.observations)]

/-- The serialized relation record, field order as in `saveGraph`. -/
def relationRecord (r : Relation) : JObj :=
  [("type", .str "relation"), ("from", .str r.«from»), ("to", .str r.«to»),
   ("relationType", .str r.relationType)]

/-- JavaScript `lines.join("\n")`. -/
def joinNl : List (List Char) → List Char
  | [] => []
  | [l] => l
  | l :: l' :: ls => l ++ '\n' :: joinNl (l' :: ls)

/-- `saveGraph`: one stringified record per line — every entity, then every
relation — joined with newlines; the file is rewritten in full. -/
def saveGraph (g : KnowledgeGraph) : List Char :=
  joinNl (g.entities.map (fun e => emitObj (entityRecord e)) ++
          g.relations.map (fun r => emitObj (relationRecord r)))

/-! ### Codec round-trip lemmas -/

theorem parseHexDigit_hexDigitChar : ∀ n < 16, parseHexDigit (hexDigitChar n) = some n := by
  decide

theorem hexDigitChar_ne_nl : ∀ n < 16, hexDigitChar n ≠ '\n' := by
  decide

theorem nl_not_mem_escapeChar (c : Char) : '\n' ∉ escapeChar c := by
  unfold escapeChar
  split_ifs with h1 h2 h3 h4 h5 h6 h7 h8
  · decide
  · decide
  · decide
  · decide
  · decide
  · decide
  · decide
  · intro hmem
    have hlt : c.toNat < 32 := h8
    simp only [List.mem_cons, List.not_mem_nil, or_false] at hmem
    rcases hmem with h | h | h | h | h | h
    · exact absurd h (by decide)
    · exact absurd h (by decide)
    · exact absurd h (by decide)
    · exact absurd h (by decide)
    · exact hexDigitChar_ne_nl (c.toNat / 16) (by omega) h.symm
    · exact hexDigitChar_ne_nl (c.toNat % 16) (by omega) h.symm
  · simp only [List.mem_singleton]
    intro h
    exact h3 h.symm

theorem nl_not_mem_encodeChars (cs : List Char) : '\n' ∉ encodeChars cs := by
  induction cs with
  | nil => simp [encodeChars]
  | cons c cs ih =>
    simp only [encodeChars, List.mem_append, not_or]
    exact ⟨nl_not_mem_escapeChar c, ih⟩

theorem nl_not_mem_quoteStr (s : String) : '\n' ∉ quoteStr s := by
  simp only [quoteStr, List.mem_cons, List.mem_append, List.mem_singleton, not_or]
  exact ⟨by decide, nl_not_mem_encodeChars s.toList, by decide⟩

theorem nl_not_mem_emitElemsTail (ss : List String) : '\n' ∉ emitElemsTail ss := by
  induction ss with
  | nil => simp [emitElemsTail]
  | cons s ss ih =>
    simp only [emitElemsTail, List.mem_cons, List.mem_append, not_or]
    exact ⟨by decide, nl_not_mem_quoteStr s, ih⟩

theorem nl_not_mem_emitVal (v : JVal) : '\n' ∉ emitVal v := by
  cases v with
  | str s => exact nl_not_mem_quoteStr s
  | arr ss =>
    cases ss with
    | nil => simp [emitVal, emitElems]
    | cons s ss =>
      intro hmem
      simp only [emitVal, emitElems, List.mem_cons, List.mem_append,
        List.mem_singleton] at hmem
      rcases hmem with h | (h | h) | h
      · exact absurd h (by decide)
      · exact nl_not_mem_quoteStr s h
      · exact nl_not_mem_emitElemsTail ss h
      · exact absurd h (by decide)

theorem nl_not_mem_emitField (kv : String × JVal) : '\n' ∉ emitField kv := by
  simp only [emitField, List.mem_append, List.mem_cons, not_or]
  exact ⟨nl_not_mem_quoteStr kv.1, by decide, nl_not_mem_emitVal kv.2⟩

theorem nl_not_mem_emitFieldsTail (o : JObj) : '\n' ∉ emitFieldsTail o := by
  induction o with
  | nil => simp [emitFieldsTail]
  | cons kv kvs ih =>
    simp only [emitFieldsTail, List.mem_cons, List.mem_append, not_or]
    exact ⟨by decide, nl_not_mem_emitField kv, ih⟩

theorem nl_not_mem_emitObj (o : JObj) : '\n' ∉ emitObj o := by
  have hf : '\n' ∉ emitFields o := by
    cases o with
    | nil => simp [emitFields]
    | cons kv kvs =>
      simp only [emitFields, List.mem_append, not_or]
      exact ⟨nl_not_mem_emitField kv, nl_not_mem_emitFieldsTail kvs⟩
  simp only [emitObj, List.mem_cons, List.mem_append, List.mem_singleton, not_or]
  exact ⟨by decide, hf, by decide⟩

theorem parseStrBodyF_encode (cs : List Char) :
    ∀ (rest : List Char) (fuel : Nat),
      (encodeChars cs ++ '"' :: rest).length < fuel →
      parseStrBodyF fuel (encodeChars cs ++ '"' :: rest) = some (cs, rest) := by
  induction cs with
  | nil =>
    intro rest fuel hlen
    cases fuel with
    | zero => exact absurd hlen (Nat.not_lt_zero _)
    | succ f => simp [encodeChars, parseStrBodyF]
  | cons c cs ih =>
    intro rest fuel hlen
    cases fuel with
    | zero => exact absurd hlen (Nat.not_lt_zero _)
    | succ f =>
      rw [encodeChars, List.append_assoc] at hlen ⊢
      by_cases h1 : c = '"'
      · subst h1
        have he : escapeChar '"' = ['\\', '"'] := rfl
        rw [he] at hlen ⊢
        simp only [List.length_append, List.length_cons] at hlen
        have hb : (encodeChars cs ++ '"' :: rest).length < f := by
          simp only [List.length_append, List.length_cons]; omega
        simp [parseStrBodyF, unescapeChar, ih rest f hb]
      · by_cases h2 : c = '\\'
        · subst h2
          have he : escapeChar '\\' = ['\\', '\\'] := rfl
          rw [he] at hlen ⊢
          simp only [List.length_append, List.length_cons] at hlen
          have hb : (encodeChars cs ++ '"' :: rest).length < f := by
            simp only [List.length_append, List.length_cons]; omega
          simp [parseStrBodyF, unescapeChar, ih rest f hb]
        · by_cases h3 : c = '\n'
          · subst h3
            have he : escapeChar '\n' = ['\\', 'n'] := rfl
            rw [he] at hlen ⊢
            simp only [List.length_append, List.length_cons] at hlen
            have hb : (encodeChars cs ++ '"' :: rest).length < f := by
              simp only [List.length_append, List.length_cons]; omega
            simp [parseStrBodyF, unescapeChar, ih rest f hb]
          · by_cases h4 : c = '\r'
            · subst h4
              have he : escapeChar '\r' = ['\\', 'r'] := rfl
              rw [he] at hlen ⊢
              simp only [List.length_append, List.length_cons] at hlen
              have hb : (encodeChars cs ++ '"' :: rest).length < f := by
                simp only [List.length_append, List.length_cons]; omega
              simp [parseStrBodyF, unescapeChar, ih rest f hb]
            · by_cases h5 : c = '\t'
              · subst h5
                have he : escapeChar '\t' = ['\\', 't'] := rfl
                rw [he] at hlen ⊢
                simp only [List.length_append, List.length_cons] at hlen
                have hb : (encodeChars cs ++ '"' :: rest).length < f := by
                  simp only [List.length_append, List.length_cons]; omega
                simp [parseStrBodyF, unescapeChar, ih rest f hb]
              · by_cases h6 : c = '\x08'
                · subst h6
                  have he : escapeChar '\x08' = ['\\', 'b'] := rfl
                  rw [he] at hlen ⊢
                  simp only [List.length_append, List.length_cons] at hlen
                  have hb : (encodeChars cs ++ '"' :: rest).length < f := by
                    simp only [List.length_append, List.length_cons]; omega
                  simp [parseStrBodyF, unescapeChar, ih rest f hb]
                · by_cases h7 : c = '\x0c'
                  · subst h7
                    have he : escapeChar '\x0c' = ['\\', 'f'] := rfl
                    rw [he] at hlen ⊢
                    simp only [List.length_append, List.length_cons] at hlen
                    have hb : (encodeChars cs ++ '"' :: rest).length < f := by
                      simp only [List.length_append, List.length_cons]; omega
                    simp [parseStrBodyF, unescapeChar, ih rest f hb]
                  · by_cases h8 : c.toNat < 0x20
                    · have he : escapeChar c =
                          ['\\', 'u', '0', '0', hexDigitChar (c.toNat / 16),
                           hexDigitChar (c.toNat % 16)] := by
                        simp [escapeChar, h1, h2, h3, h4, h5, h6, h7, h8]
                      rw [he] at hlen ⊢
                      simp only [List.length_append, List.length_cons] at hlen
                      have hb : (encodeChars cs ++ '"' :: rest).length < f := by
                        simp only [List.length_append, List.length_cons]; omega
                      have hd1 : parseHexDigit (hexDigitChar (c.toNat / 16)) =
                          some (c.toNat / 16) :=
                        parseHexDigit_hexDigitChar _ (by omega)
                      have hd2 : parseHexDigit (hexDigitChar (c.toNat % 16)) =
                          some (c.toNat % 16) :=
                        parseHexDigit_hexDigitChar _ (by omega)
                      have hval : ((0 * 16 + 0) * 16 + c.toNat / 16) * 16 + c.toNat % 16
                          = c.toNat := by omega
                      have h0 : parseHexDigit '0' = some 0 := rfl
                      have harith : c.toNat / 16 * 16 + c.toNat % 16 = c.toNat := by
                        omega
                      simp [parseStrBodyF, h0, hd1, hd2, harith, Char.ofNat_toNat,
                        ih rest f hb]
                    · have he : escapeChar c = [c] := by
                        simp [escapeChar, h1, h2, h3, h4, h5, h6, h7, h8]
                      rw [he] at hlen ⊢
                      simp only [List.length_append, List.length_cons] at hlen
                      have hb : (encodeChars cs ++ '"' :: rest).length < f := by
                        simp only [List.length_append, List.length_cons]; omega
                      simp [parseStrBodyF, h1, h2, h8, ih rest f hb]

theorem parseStringLitF_quote (s : String) (rest : List Char) (fuel : Nat)
    (h : (quoteStr s ++ rest).length ≤ fuel) :
    parseStringLitF fuel (quoteStr s ++ rest) = some (s, rest) := by
  obtain ⟨sd⟩ := s
  have hdl : String.toList ⟨sd⟩ = sd := rfl
  have hshape : quoteStr ⟨sd⟩ ++ rest = '"' :: (encodeChars sd ++ '"' :: rest) := by
    simp [quoteStr, hdl]
  rw [hshape] at h ⊢
  have hbody : (encodeChars sd ++ '"' :: rest).length < fuel := by
    simp only [List.length_cons] at h
    omega
  simp [parseStringLitF, parseStrBodyF_encode sd rest fuel hbody]

theorem parseMoreElemsF_encode (ss : List String) :
    ∀ (rest : List Char) (fuel : Nat),
      (emitElemsTail ss ++ ']' :: rest).length ≤ fuel →
      parseMoreElemsF fuel (emitElemsTail ss ++ ']' :: rest) = some (ss, rest) := by
  induction ss with
  | nil =>
    intro rest fuel h
    cases fuel with
    | zero =>
      simp only [emitElemsTail, List.nil_append, List.length_cons] at h
      omega
    | succ f => simp [emitElemsTail, parseMoreElemsF]
  | cons s ss ih =>
    intro rest fuel h
    cases fuel with
    | zero =>
      simp only [emitElemsTail, List.cons_append, List.length_cons] at h
      omega
    | succ f =>
      simp only [emitElemsTail, List.cons_append, List.append_assoc] at h ⊢
      simp only [List.length_cons, List.length_append] at h
      have hlit : (quoteStr s ++ (emitElemsTail ss ++ ']' :: rest)).length ≤ f := by
        simp only [List.length_append, List.length_cons]
        omega
      have htail : (emitElemsTail ss ++ ']' :: rest).length ≤ f := by
        simp only [List.length_append, List.length_cons]
        omega
      simp [parseMoreElemsF, parseStringLitF_quote s _ f hlit, ih rest f htail]

theorem parseArrF_encode (ss : List String) (rest : List Char) (fuel : Nat)
    (h : (emitElems ss ++ ']' :: rest).length ≤ fuel) :
    parseArrF fuel (emitElems ss ++ ']' :: rest) = some (ss, rest) := by
  cases ss with
  | nil => simp [emitElems, parseArrF]
  | cons s ss =>
    obtain ⟨sd⟩ := s
    have hdl : String.toList ⟨sd⟩ = sd := rfl
    have hshape : emitElems (⟨sd⟩ :: ss) ++ ']' :: rest
        = quoteStr ⟨sd⟩ ++ (emitElemsTail ss ++ ']' :: rest) := by
      simp [emitElems, List.append_assoc]
    rw [hshape] at h ⊢
    have hlit' := parseStringLitF_quote ⟨sd⟩ (emitElemsTail ss ++ ']' :: rest) fuel h
    have htail : (emitElemsTail ss ++ ']' :: rest).length ≤ fuel := by
      simp only [List.length_cons, List.length_append] at h ⊢
      omega
    have hcanon : quoteStr ⟨sd⟩ ++ (emitElemsTail ss ++ ']' :: rest)
        = '"' :: (encodeChars sd ++ '"' :: (emitElemsTail ss ++ ']' :: rest)) := by
      simp [quoteStr, hdl, List.append_assoc]
    rw [hcanon] at hlit' ⊢
    simp [parseArrF, hlit', parseMoreElemsF_encode ss rest fuel htail]

theorem parseValF_encode (v : JVal) (rest : List Char) (fuel : Nat)
    (h : (emitVal v ++ rest).length ≤ fuel) :
    parseValF fuel (emitVal v ++ rest) = some (v, rest) := by
  cases v with
  | str s =>
    obtain ⟨sd⟩ := s
    have hdl : String.toList ⟨sd⟩ = sd := rfl
    have hlit : (quoteStr ⟨sd⟩ ++ rest).length ≤ fuel := by
      simpa [emitVal] using h
    have hlit' := parseStringLitF_quote ⟨sd⟩ rest fuel hlit
    have hcanon : quoteStr ⟨sd⟩ ++ rest
        = '"' :: (encodeChars sd ++ '"' :: rest) := by
      simp [quoteStr, hdl]
    have hshape : emitVal (JVal.str ⟨sd⟩) ++ rest
        = '"' :: (encodeChars sd ++ '"' :: rest) := by
      simp [emitVal, quoteStr, hdl]
    rw [hcanon] at hlit'
    rw [hshape]
    simp [parseValF, hlit']
  | arr ss =>
    have hshape : emitVal (JVal.arr ss) ++ rest
        = '[' :: (emitElems ss ++ ']' :: rest) := by
      simp [emitVal, List.append_assoc]
    rw [hshape] at h ⊢
    have harr : (emitElems ss ++ ']' :: rest).length ≤ fuel := by
      simp only [List.length_cons] at h
      omega
    simp [parseValF, parseArrF_encode ss rest fuel harr]

theorem parseFieldF_encode (kv : String × JVal) (rest : List Char) (fuel : Nat)
    (h : (emitField kv ++ rest).length ≤ fuel) :
    parseFieldF fuel (emitField kv ++ rest) = some (kv, rest) := by
  obtain ⟨k, v⟩ := kv
  have hshape : emitField (k, v) ++ rest
      = quoteStr k ++ (':' :: (emitVal v ++ rest)) := by
    simp [emitField, List.append_assoc]
  rw [hshape] at h ⊢
  have hlit : (quoteStr k ++ (':' :: (emitVal v ++ rest))).length ≤ fuel := h
  have hval : (emitVal v ++ rest).length ≤ fuel := by
    simp only [List.length_append, List.length_cons] at h ⊢
    omega
  simp [parseFieldF, parseStringLitF_quote k _ fuel hlit,
    parseValF_encode v rest fuel hval]

theorem parseMoreFieldsF_encode (o : JObj) :
    ∀ (rest : List Char) (fuel : Nat),
      (emitFieldsTail o ++ '}' :: rest).length ≤ fuel →
      parseMoreFieldsF fuel (emitFieldsTail o ++ '}' :: rest) = some (o, rest) := by
  induction o with
  | nil =>
    intro rest fuel h
    cases fuel with
    | zero =>
      simp only [emitFieldsTail, List.nil_append, List.length_cons] at h
      omega
    | succ f => simp [emitFieldsTail, parseMoreFieldsF]
  | cons kv kvs ih =>
    intro rest fuel h
    cases fuel with
    | zero =>
      simp only [emitFieldsTail, List.cons_append, List.length_cons] at h
      omega
    | succ f =>
      simp only [emitFieldsTail, List.cons_append, List.append_assoc] at h ⊢
      simp only [List.length_cons, List.length_append] at h
      have hfld : (emitField kv ++ (emitFieldsTail kvs ++ '}' :: rest)).length ≤ f := by
        simp only [List.length_append, List.length_cons]
        omega
      have htail : (emitFieldsTail kvs ++ '}' :: rest).length ≤ f := by
        simp only [List.length_append, List.length_cons]
        omega
      simp [parseMoreFieldsF, parseFieldF_encode kv _ f hfld, ih rest f htail]

theorem parseObjF_encode (o : JObj) (rest : List Char) (fuel : Nat)
    (h : (emitFields o ++ '}' :: rest).length ≤ fuel) :
    parseObjF fuel (emitFields o ++ '}' :: rest) = some (o, rest) := by
  cases o with
  | nil => simp [emitFields, parseObjF]
  | cons kv kvs =>
    have hshape : emitFields (kv :: kvs) ++ '}' :: rest
        = emitField kv ++ (emitFieldsTail kvs ++ '}' :: rest) := by
      simp [emitFields, List.append_assoc]
    rw [hshape] at h ⊢
    have hfld : (emitField kv ++ (emitFieldsTail kvs ++ '}' :: rest)).length ≤ fuel := h
    have htail : (emitFieldsTail kvs ++ '}' :: rest).length ≤ fuel := by
      simp only [List.length_append, List.length_cons] at h ⊢
      omega
    obtain ⟨k, v⟩ := kv
    obtain ⟨kd⟩ := k
    have hdl : String.toList ⟨kd⟩ = kd := rfl
    have hfld' := parseFieldF_encode (⟨kd⟩, v) _ fuel hfld
    have hhead : emitField (⟨kd⟩, v) ++ (emitFieldsTail kvs ++ '}' :: rest)
        = '"' :: (encodeChars kd ++ '"' :: (':' :: (emitVal v ++ (emitFieldsTail kvs ++ '}' :: rest)))) := by
      simp [emitField, quoteStr, hdl, List.append_assoc]
    rw [hhead] at hfld' ⊢
    simp [parseObjF, hfld', parseMoreFieldsF_encode kvs rest fuel htail]

theorem parseLine_emitObj (o : JObj) : parseLine (emitObj o) = some (.obj o) := by
  have hshape : emitObj o = '{' :: (emitFields o ++ '}' :: []) := by
    simp [emitObj]
  rw [hshape]
  simp only [parseLine]
  have hobj := parseObjF_encode o []
    (('{' :: (emitFields o ++ '}' :: [])).length + 1)
    (by simp only [List.length_cons, List.length_append]; omega)
  simp only [List.length_cons, List.length_append] at hobj ⊢
  rw [hobj]

/-! ### Line structure: split/join and trim -/

theorem jsSplitNl_no_nl (l : List Char) (h : '\n' ∉ l) : jsSplitNl l = [l] := by
  induction l with
  | nil => rfl
  | cons c t ih =>
    have hc : ¬ c = '\n' := fun hh => h (hh ▸ List.mem_cons_self c t)
    have ht : '\n' ∉ t := fun hh => h (List.mem_cons_of_mem c hh)
    simp only [jsSplitNl, if_neg hc]
    rw [ih ht]

theorem jsSplitNl_append_nl (l rest : List Char) (h : '\n' ∉ l) :
    jsSplitNl (l ++ '\n' :: rest) = l :: jsSplitNl rest := by
  induction l with
  | nil => simp [jsSplitNl]
  | cons c t ih =>
    have hc : ¬ c = '\n' := fun hh => h (hh ▸ List.mem_cons_self c t)
    have ht : '\n' ∉ t := fun hh => h (List.mem_cons_of_mem c hh)
    simp only [List.cons_append, jsSplitNl, if_neg hc, List.append_eq]
    rw [ih ht]

theorem jsSplitNl_joinNl : ∀ (ls : List (List Char)), ls ≠ [] →
    (∀ l ∈ ls, '\n' ∉ l) → jsSplitNl (joinNl ls) = ls
  | [], hne, _ => absurd rfl hne
  | [l], _, h => by
    rw [joinNl, jsSplitNl_no_nl l (h l (List.mem_singleton_self l))]
  | l :: l' :: ls, _, h => by
    rw [joinNl, jsSplitNl_append_nl l _ (h l (List.mem_cons_self _ _))]
    rw [jsSplitNl_joinNl (l' :: ls) (List.cons_ne_nil l' ls)
      (fun x hx => h x (List.mem_cons_of_mem l hx))]

theorem jsTrim_emitObj_not_empty (o : JObj) : (jsTrim (emitObj o)).isEmpty = false := by
  show (jsTrim ('{' :: (emitFields o ++ ['}']))).isEmpty = false
  unfold jsTrim
  rw [List.dropWhile_cons]
  have hws : isWsChar '{' = false := rfl
  rw [hws]
  simp only [Bool.false_eq_true, if_false]
  cases hdw : ('{' :: (emitFields o ++ ['}'])).reverse.dropWhile isWsChar with
  | nil =>
    exfalso
    have := List.dropWhile_eq_nil_iff.mp hdw '{'
      (List.mem_reverse.mpr (List.mem_cons_self _ _))
    simp [isWsChar] at this
  | cons a t => simp

/-! ### The load reduce over good and bad lines -/

theorem loadLines_append (xs ys : List (List Char)) (g : KnowledgeGraph) :
    loadLines (xs ++ ys) g = (loadLines xs g).bind (fun g' => loadLines ys g') := by
  induction xs generalizing g with
  | nil => simp [loadLines, Except.bind]
  | cons l xs ih =>
    simp only [List.cons_append, loadLines]
    cases hp : parseLine l with
    | none => simp [Except.bind]
    | some item => simp [ih]

theorem applyItem_entityRecord (g : KnowledgeGraph) (e : Entity) :
    applyItem g (.obj (entityRecord e)) = ⟨g.entities ++ [e], g.relations⟩ := rfl

theorem applyItem_relationRecord (g : KnowledgeGraph) (r : Relation) :
    applyItem g (.obj (relationRecord r)) = ⟨g.entities, g.relations ++ [r]⟩ := rfl

theorem loadLines_entityLines (es : List Entity) :
    ∀ g : KnowledgeGraph,
      loadLines (es.map (fun e => emitObj (entityRecord e))) g
        = .ok ⟨g.entities ++ es, g.relations⟩ := by
  induction es with
  | nil => intro g; simp [loadLines]
  | cons e es ih =>
    intro g
    simp only [List.map_cons, loadLines, parseLine_emitObj]
    rw [applyItem_entityRecord, ih]
    simp

theorem loadLines_relationLines (rs : List Relation) :
    ∀ g : KnowledgeGraph,
      loadLines (rs.map (fun r => emitObj (relationRecord r))) g
        = .ok ⟨g.entities, g.relations ++ rs⟩ := by
  induction rs with
  | nil => intro g; simp [loadLines]
  | cons r rs ih =>
    intro g
    simp only [List.map_cons, loadLines, parseLine_emitObj]
    rw [applyItem_relationRecord, ih]
    simp

theorem loadLines_error_iff (lines : List (List Char)) :
    ∀ g : KnowledgeGraph,
      (∃ msg, loadLines lines g = .error msg) ↔
        ∃ line ∈ lines, parseLine line = none := by
  induction lines with
  | nil => intro g; simp [loadLines]
  | cons l rest ih =>
    intro g
    cases hp : parseLine l with
    | none => simp [loadLines, hp]
    | some item => simp [loadLines, hp, ih]

/-! ### C5: the save/load round trip is the identity -/

/-- C5: saving any graph and loading it back from the same storage (as a
fresh store instance's `readGraph` does) returns the very same graph — in
fact the same entity and relation lists, so a fortiori the same sets. -/
theorem save_load_round_trip (g : KnowledgeGraph) :
    loadGraph (.content (saveGraph g)) = .ok g := by
  by_cases hnil : g.entities.map (fun e => emitObj (entityRecord e)) ++
      g.relations.map (fun r => emitObj (relationRecord r)) = []
  · obtain ⟨h1, h2⟩ := List.append_eq_nil.mp hnil
    have he : g.entities = [] := List.map_eq_nil_iff.mp h1
    have hr : g.relations = [] := List.map_eq_nil_iff.mp h2
    show loadGraph (.content (joinNl _)) = .ok g
    rw [hnil]
    have hg : g = ⟨[], []⟩ := by cases g; simp_all
    rw [hg]
    rfl
  · have hnl : ∀ l ∈ g.entities.map (fun e => emitObj (entityRecord e)) ++
        g.relations.map (fun r => emitObj (relationRecord r)), '\n' ∉ l := by
      intro l hl
      rcases List.mem_append.mp hl with h | h <;>
        obtain ⟨x, -, rfl⟩ := List.mem_map.mp h <;>
        exact nl_not_mem_emitObj _
    show loadGraph (.content (joinNl _)) = .ok g
    simp only [loadGraph]
    rw [jsSplitNl_joinNl _ hnil hnl]
    rw [List.filter_eq_self.mpr ?hblank]
    case hblank =>
      intro l hl
      rcases List.mem_append.mp hl with h | h <;>
        obtain ⟨x, -, rfl⟩ := List.mem_map.mp h <;>
        simp [jsTrim_emitObj_not_empty]
    rw [loadLines_append, loadLines_entityLines]
    show (loadLines _ (⟨[] ++ g.entities, []⟩ : KnowledgeGraph)) = .ok g
    rw [loadLines_relationLines]
    simp

/-- Witness for C5: the round trip at a concrete two-record graph. -/
theorem save_load_round_trip_witness :
    loadGraph (.content (saveGraph ⟨[⟨"A", "t", ["x"]⟩], [⟨"A", "B", "r"⟩]⟩))
      = .ok ⟨[⟨"A", "t", ["x"]⟩], [⟨"A", "B", "r"⟩]⟩ :=
  save_load_round_trip _

/-! ### C8: when load succeeds and when it fails -/

/-- C8: `loadGraph` returns the empty graph (not an error) on a missing
file; it rethrows a read failure; on readable content it fails exactly when
some non-blank line fails to parse; and blank lines never affect the
result — loading text with its blank lines removed gives the same answer. -/
theorem loadGraph_error_spec :
    loadGraph .missing = .ok ⟨[], []⟩ ∧
    (∀ err, loadGraph (.unreadable err) = .error err) ∧
    (∀ data, (∃ msg, loadGraph (.content data) = .error msg) ↔
      ∃ line ∈ jsSplitNl data, (jsTrim line).isEmpty = false ∧ parseLine line = none) ∧
    (∀ ls : List (List Char), (∀ l ∈ ls, '\n' ∉ l) →
      loadGraph (.content (joinNl ls)) =
        loadGraph (.content (joinNl (ls.filter (fun l => !(jsTrim l).isEmpty))))) := by
  refine ⟨rfl, fun err => rfl, ?_, ?_⟩
  · intro data
    simp only [loadGraph]
    rw [loadLines_error_iff]
    constructor
    · rintro ⟨line, hmem, hp⟩
      rw [List.mem_filter] at hmem
      exact ⟨line, hmem.1, by simpa using hmem.2, hp⟩
    · rintro ⟨line, hmem, hblank, hp⟩
      exact ⟨line, List.mem_filter.mpr ⟨hmem, by simp [hblank]⟩, hp⟩
  · intro ls hnl
    by_cases hnil : ls = []
    · subst hnil; rfl
    · simp only [loadGraph]
      rw [jsSplitNl_joinNl ls hnil hnl]
      by_cases hnil2 : ls.filter (fun l => !(jsTrim l).isEmpty) = []
      · rw [hnil2]
        rfl
      · rw [jsSplitNl_joinNl _ hnil2 (fun l hl => hnl l (List.mem_filter.mp hl).1)]
        rw [List.filter_eq_self.mpr (fun l hl => (List.mem_filter.mp hl).2)]

/-- Witness for C8: a malformed line makes load fail; a read error is
rethrown; prepending a blank line changes nothing. -/
theorem loadGraph_error_spec_witness :
    (∃ msg, loadGraph (.content ("\x7boops".toList)) = .error msg) ∧
    loadGraph (.unreadable "EACCES") = .error "EACCES" ∧
    loadGraph (.content (joinNl [[], "{}".toList])) =
      loadGraph (.content (joinNl ([[], "{}".toList].filter
        (fun l => !(jsTrim l).isEmpty)))) :=
  ⟨(loadGraph_error_spec.2.2.1 _).mpr (by decide),
   loadGraph_error_spec.2.1 "EACCES",
   loadGraph_error_spec.2.2.2 [[], "{}".toList] (by decide)⟩

/-! ### C10: a well-formed record with an unknown tag is silently dropped -/

/-- C10: a durable line that parses as a record object whose `type` tag is
neither `"entity"` nor `"relation"` contributes nothing to any load — the
load succeeds exactly as if the line were absent, the record reaches no
result, and since every mutating call rewrites the file from the loaded
graph alone, the record is erased by the next save. -/
theorem unknown_tag_dropped (ls1 ls2 : List (List Char)) (o : JObj)
    (h1 : ∀ l ∈ ls1, '\n' ∉ l) (h2 : ∀ l ∈ ls2, '\n' ∉ l)
    (hte : lookupField o "type" ≠ some (.str "entity"))
    (htr : lookupField o "type" ≠ some (.str "relation")) :
    (∀ g, applyItem g (.obj o) = g) ∧
    loadGraph (.content (joinNl (ls1 ++ emitObj o :: ls2))) =
      loadGraph (.content (joinNl (ls1 ++ ls2))) := by
  have happly : ∀ g, applyItem g (.obj o) = g := by
    intro g
    simp [applyItem, hte, htr]
  refine ⟨happly, ?_⟩
  have hnlmid : ∀ l ∈ ls1 ++ emitObj o :: ls2, '\n' ∉ l := by
    intro l hl
    rcases List.mem_append.mp hl with h | h
    · exact h1 l h
    · rcases List.mem_cons.mp h with rfl | h
      · exact nl_not_mem_emitObj o
      · exact h2 l h
  have hmidne : ls1 ++ emitObj o :: ls2 ≠ [] := by simp
  simp only [loadGraph]
  rw [jsSplitNl_joinNl _ hmidne hnlmid, List.filter_append, List.filter_cons]
  rw [show (!(jsTrim (emitObj o)).isEmpty) = true by
    simp [jsTrim_emitObj_not_empty]]
  simp only [if_true]
  by_cases hn : ls1 ++ ls2 = []
  · obtain ⟨ha, hb⟩ := List.append_eq_nil.mp hn
    subst ha; subst hb
    simp [loadLines, parseLine_emitObj, happly]
  · rw [jsSplitNl_joinNl (ls1 ++ ls2) hn (by
      intro l hl
      rcases List.mem_append.mp hl with h | h
      · exact h1 l h
      · exact h2 l h)]
    rw [List.filter_append, loadLines_append, loadLines_append]
    have hstep : (fun g' => loadLines
        (emitObj o :: ls2.filter (fun l => !(jsTrim l).isEmpty)) g') =
        fun g' => loadLines (ls2.filter (fun l => !(jsTrim l).isEmpty)) g' := by
      funext g'
      simp [loadLines, parseLine_emitObj, happly]
    rw [hstep]

/-- Witness for C10: a `{"type":"widget"}` line between no other lines loads
to the empty graph, identically to the file without it. -/
theorem unknown_tag_dropped_witness :
    (∀ g, applyItem g (.obj [("type", .str "widget")]) = g) ∧
    loadGraph (.content (joinNl ([] ++ emitObj [("type", .str "widget")] :: []))) =
      loadGraph (.content (joinNl ([] ++ []))) :=
  unknown_tag_dropped [] [] [("type", .str "widget")]
    (by decide) (by decide) (by decide) (by decide)

/-! ### The viewer's reconciliation step (`updateGraph` in visualize.ts)

The client keeps `nodes` (with D3 layout fields `x`, `y`, `vx`, `vy`, which
start `undefined` on a freshly received node) and `links`. On each poll
response it runs `updateGraph(newNodes, newLinks)`. Coordinates are modelled
as `ℚ` (the JS numbers here are copied verbatim for surviving nodes, and the
random placement's arithmetic is exact on these operand ranges);
`Math.random()` is modelled by a supplied stream `rand`, indexed by the
node's position in `newNodes`, with values in `[0, 1)`. -/

/-- A client-side graph node: the wire fields `id`, `type`, `observations`
plus the D3 layout fields, `none` standing for JavaScript `undefined`. -/
structure CNode where
  id : String
  type : String
  observations : List String
  x : Option ℚ
  y : Option ℚ
  vx : Option ℚ
  vy : Option ℚ
deriving DecidableEq, Repr

/-- An incoming wire link `{source, target, type}` (endpoint names). -/
structure WLink where
  source : String
  target : String
  type : String
deriving DecidableEq, Repr

/-- A client-side link, kept by endpoint id (the JS object holds resolved
node references; only links whose endpoints resolve are kept). -/
structure CLink where
  source : String
  target : String
  type : String
deriving DecidableEq, Repr

/-- A saved layout record `{x, y, vx, vy}`; stored only when `x` was
defined, so `x` is bare. -/
structure SavedPos where
  x : ℚ
  y : Option ℚ
  vx : Option ℚ
  vy : Option ℚ
deriving DecidableEq, Repr

/-- `new Map(nodes.map(n => [n.id, n])).get(i)`: last entry wins. -/
def lookupNode (ns : List CNode) (i : String) : Option CNode :=
  ns.reverse.find? (fun n => n.id == i)

/-- The `positions` map: `set(n.id, {x, y, vx, vy})` for every node with
defined `x`; lookup takes the last such write. -/
def findPos (olds : List CNode) (i : String) : Option SavedPos :=
  match olds.reverse.find? (fun n => n.id == i && n.x.isSome) with
  | some n =>
    match n.x with
    | some px => some ⟨px, n.y, n.vx, n.vy⟩
    | none => none
  | none => none

/-- The link key `source + '|' + type + '|' + target`. -/
def linkKey (source type target : String) : String :=
  source ++ "|" ++ type ++ "|" ++ target

/-- The change signal: sizes differ, or some incoming node is new or has a
different `type` or (by `JSON.stringify`) different `observations`, or some
incoming link's key is absent from the existing key set. -/
def hasChanges (nodes : List CNode) (links : List CLink)
    (newNodes : List CNode) (newLinks : List WLink) : Bool :=
  (nodes.length != newNodes.length || links.length != newLinks.length) ||
  newNodes.any (fun n =>
    match lookupNode nodes n.id with
    | none => true
    | some existing =>
      existing.type != n.type ||
      emitVal (.arr existing.observations) != emitVal (.arr n.observations)) ||
  newLinks.any (fun l =>
    !(links.any (fun l0 =>
      linkKey l0.source l0.type l0.target == linkKey l.source l.type l.target)))

/-- The reconciliation step: when the change signal fires, each incoming
node takes the saved position of its id when one exists and otherwise a
random spot within ±50 of the viewport centre (`vx`/`vy` left as received),
and the link list is rebuilt from the incoming links whose endpoints both
resolve against the new node set; with no change signal, state is untouched. -/
def updateGraph (width height : ℚ) (rand : Nat → ℚ × ℚ)
    (nodes : List CNode) (links : List CLink)
    (newNodes : List CNode) (newLinks : List WLink) : List CNode × List CLink :=
  if hasChanges nodes links newNodes newLinks then
    let nodes' := newNodes.enum.map (fun p =>
      match findPos nodes p.2.id with
      | some pos =>
        { p.2 with x := some pos.x, y := pos.y, vx := pos.vx, vy := pos.vy }
      | none =>
        { p.2 with
            x := some (width / 2 + ((rand p.1).1 - 1/2) * 100),
            y := some (height / 2 + ((rand p.1).2 - 1/2) * 100) })
    let links' := newLinks.filterMap (fun l =>
      match lookupNode nodes' l.source, lookupNode nodes' l.target with
      | some _, some _ => some ⟨l.source, l.target, l.type⟩
      | _, _ => none)
    (nodes', links')
  else (nodes, links)

/-! ### C9: reconciliation preserves layout state -/

theorem find?_eq_some_of_unique {α : Type} (p : α → Bool) (l : List α) (a : α)
    (ha : a ∈ l) (hpa : p a = true)
    (huniq : ∀ b ∈ l, p b = true → b = a) :
    l.find? p = some a := by
  induction l with
  | nil => cases ha
  | cons x xs ih =>
    cases hpx : p x with
    | true =>
      have hx : x = a := huniq x (List.mem_cons_self x xs) hpx
      subst hx
      simp [List.find?_cons, hpx]
    | false =>
      have hax : a ∈ xs := by
        rcases List.mem_cons.mp ha with rfl | h
        · rw [hpa] at hpx; cases hpx
        · exact h
      simp only [List.find?_cons, hpx]
      exact ih hax (fun b hb hpb => huniq b (List.mem_cons_of_mem x hb) hpb)

theorem findPos_of_mem (nodes : List CNode) (nOld : CNode) (px : ℚ)
    (hids : (nodes.map CNode.id).Nodup)
    (hmem : nOld ∈ nodes) (hx : nOld.x = some px) :
    findPos nodes nOld.id = some ⟨px, nOld.y, nOld.vx, nOld.vy⟩ := by
  have hfind : nodes.reverse.find? (fun n => n.id == nOld.id && n.x.isSome)
      = some nOld := by
    apply find?_eq_some_of_unique
    · exact List.mem_reverse.mpr hmem
    · simp [hx]
    · intro b hb hpb
      simp only [Bool.and_eq_true, beq_iff_eq] at hpb
      exact List.inj_on_of_nodup_map hids (List.mem_reverse.mp hb) hmem hpb.1
  simp [findPos, hfind, hx]

theorem findPos_eq_none (nodes : List CNode) (i : String)
    (h : ∀ nOld ∈ nodes, nOld.id ≠ i) :
    findPos nodes i = none := by
  have hfind : nodes.reverse.find? (fun n => n.id == i && n.x.isSome) = none := by
    rw [List.find?_eq_none]
    intro b hb
    simp only [Bool.and_eq_true, beq_iff_eq, not_and]
    intro hbid
    exact absurd hbid (h b (List.mem_reverse.mp hb))
  simp [findPos, hfind]

theorem findPos_some_mem (nodes : List CNode) (i : String) (pos : SavedPos)
    (h : findPos nodes i = some pos) : ∃ nd ∈ nodes, nd.id = i := by
  unfold findPos at h
  cases hf : nodes.reverse.find? (fun n => n.id == i && n.x.isSome) with
  | none => rw [hf] at h; cases h
  | some nd =>
    have hmem := List.mem_of_find?_eq_some hf
    have hp := List.find?_some hf
    simp only [Bool.and_eq_true, beq_iff_eq] at hp
    exact ⟨nd, List.mem_reverse.mp hmem, hp.1⟩

/-- C9: when the change signal fires, every surviving node keeps its
recorded position and velocity, keyed by `id`; every newly appearing node
receives a position within 50 of the viewport centre (given a `[0,1)`
random stream); and only ids present in the poll response survive, so a
removed id's position state is dropped. -/
theorem updateGraph_reconciliation (width height : ℚ) (rand : Nat → ℚ × ℚ)
    (nodes : List CNode) (links : List CLink)
    (newNodes : List CNode) (newLinks : List WLink)
    (hch : hasChanges nodes links newNodes newLinks = true)
    (hids : (nodes.map CNode.id).Nodup)
    (hrand : ∀ i, 0 ≤ (rand i).1 ∧ (rand i).1 < 1 ∧
      0 ≤ (rand i).2 ∧ (rand i).2 < 1) :
    (∀ nOld ∈ nodes, ∀ px, nOld.x = some px →
      ∀ m ∈ (updateGraph width height rand nodes links newNodes newLinks).1,
        m.id = nOld.id →
        m.x = nOld.x ∧ m.y = nOld.y ∧ m.vx = nOld.vx ∧ m.vy = nOld.vy) ∧
    (∀ m ∈ (updateGraph width height rand nodes links newNodes newLinks).1,
      (∀ nOld ∈ nodes, nOld.id ≠ m.id) →
      ∃ mx my, m.x = some mx ∧ m.y = some my ∧
        |mx - width / 2| ≤ 50 ∧ |my - height / 2| ≤ 50) ∧
    (∀ m ∈ (updateGraph width height rand nodes links newNodes newLinks).1,
      ∃ n ∈ newNodes, m.id = n.id) := by
  have hresult : (updateGraph width height rand nodes links newNodes newLinks).1
      = newNodes.enum.map (fun p =>
        match findPos nodes p.2.id with
        | some pos =>
          { p.2 with x := some pos.x, y := pos.y, vx := pos.vx, vy := pos.vy }
        | none =>
          { p.2 with
              x := some (width / 2 + ((rand p.1).1 - 1/2) * 100),
              y := some (height / 2 + ((rand p.1).2 - 1/2) * 100) }) := by
    simp [updateGraph, hch]
  refine ⟨?_, ?_, ?_⟩
  · intro nOld hold px hx m hm hid
    rw [hresult] at hm
    obtain ⟨⟨idx, n⟩, -, rfl⟩ := List.mem_map.mp hm
    cases hfp : findPos nodes n.id with
    | none =>
      have hid' : n.id = nOld.id := by simpa [hfp] using hid
      rw [hid'] at hfp
      rw [findPos_of_mem nodes nOld px hids hold hx] at hfp
      cases hfp
    | some pos =>
      have hid' : n.id = nOld.id := by simpa [hfp] using hid
      rw [hid'] at hfp
      rw [findPos_of_mem nodes nOld px hids hold hx] at hfp
      have hpos : pos = ⟨px, nOld.y, nOld.vx, nOld.vy⟩ :=
        (Option.some_inj.mp hfp).symm
      subst hpos
      have hfp2 : findPos nodes n.id
          = some ⟨px, nOld.y, nOld.vx, nOld.vy⟩ := by
        rw [hid']
        exact findPos_of_mem nodes nOld px hids hold hx
      simp [hfp2, hx]
  · intro m hm hnew
    rw [hresult] at hm
    obtain ⟨⟨idx, n⟩, -, rfl⟩ := List.mem_map.mp hm
    cases hfp : findPos nodes n.id with
    | some pos =>
      exfalso
      obtain ⟨nd, hnd, hndid⟩ := findPos_some_mem nodes n.id pos hfp
      exact hnew nd hnd (by simp [hfp, hndid])
    | none =>
      obtain ⟨h1, h2, h3, h4⟩ := hrand idx
      refine ⟨width / 2 + ((rand idx).1 - 1/2) * 100,
              height / 2 + ((rand idx).2 - 1/2) * 100, ?_, ?_, ?_, ?_⟩
      · simp [hfp]
      · simp [hfp]
      · have heq : width / 2 + ((rand idx).1 - 1/2) * 100 - width / 2
            = ((rand idx).1 - 1/2) * 100 := by ring
        rw [heq, abs_mul]
        have habs : |(rand idx).1 - 1/2| ≤ 1/2 :=
          abs_le.mpr ⟨by linarith, by linarith⟩
        have h100 : |(100 : ℚ)| = 100 := by norm_num
        rw [h100]
        linarith
      · have heq : height / 2 + ((rand idx).2 - 1/2) * 100 - height / 2
            = ((rand idx).2 - 1/2) * 100 := by ring
        rw [heq, abs_mul]
        have habs : |(rand idx).2 - 1/2| ≤ 1/2 :=
          abs_le.mpr ⟨by linarith, by linarith⟩
        have h100 : |(100 : ℚ)| = 100 := by norm_num
        rw [h100]
        linarith
  · intro m hm
    rw [hresult] at hm
    obtain ⟨⟨idx, n⟩, hpair, rfl⟩ := List.mem_map.mp hm
    have hn : n ∈ newNodes := by
      obtain ⟨hlt, heq⟩ := List.mem_enum hpair
      rw [heq]
      exact List.getElem_mem hlt
    refine ⟨n, hn, ?_⟩
    cases hfp : findPos nodes n.id <;> simp [hfp]

/-- Witness for C9: node "A" at (10,20) survives a poll adding node "B";
"A" keeps exactly (10,20) with its velocity, and the result only carries
ids from the response. -/
theorem updateGraph_reconciliation_witness :
    hasChanges [⟨"A", "t", [], some 10, some 20, some 0, some 0⟩] []
      [⟨"A", "t", [], none, none, none, none⟩,
       ⟨"B", "u", [], none, none, none, none⟩] [] = true ∧
    ((⟨"A", "t", [], some 10, some 20, some 0, some 0⟩ : CNode).x =
        (⟨"A", "t", [], some 10, some 20, some 0, some 0⟩ : CNode).x ∧
      (⟨"A", "t", [], some 10, some 20, some 0, some 0⟩ : CNode).y =
        (⟨"A", "t", [], some 10, some 20, some 0, some 0⟩ : CNode).y ∧
      (⟨"A", "t", [], some 10, some 20, some 0, some 0⟩ : CNode).vx =
        (⟨"A", "t", [], some 10, some 20, some 0, some 0⟩ : CNode).vx ∧
      (⟨"A", "t", [], some 10, some 20, some 0, some 0⟩ : CNode).vy =
        (⟨"A", "t", [], some 10, some 20, some 0, some 0⟩ : CNode).vy) ∧
    (∃ n ∈ [(⟨"A", "t", [], none, none, none, none⟩ : CNode),
        ⟨"B", "u", [], none, none, none, none⟩],
      (⟨"B", "u", [], some 400, some 300, none, none⟩ : CNode).id = n.id) := by
  have hch : hasChanges [⟨"A", "t", [], some 10, some 20, some 0, some 0⟩] []
      [⟨"A", "t", [], none, none, none, none⟩,
       ⟨"B", "u", [], none, none, none, none⟩] [] = true := by decide
  have hmain := updateGraph_reconciliation 800 600 (fun _ => (1/2, 1/2))
      [⟨"A", "t", [], some 10, some 20, some 0, some 0⟩] []
      [⟨"A", "t", [], none, none, none, none⟩,
       ⟨"B", "u", [], none, none, none, none⟩] []
      hch (by decide)
      (fun i => ⟨by norm_num, by norm_num, by norm_num, by norm_num⟩)
  have hres : (updateGraph 800 600 (fun _ => (1/2, 1/2))
      [⟨"A", "t", [], some 10, some 20, some 0, some 0⟩] []
      [⟨"A", "t", [], none, none, none, none⟩,
       ⟨"B", "u", [], none, none, none, none⟩] []).1
      = [⟨"A", "t", [], some 10, some 20, some 0, some 0⟩,
         ⟨"B", "u", [], some 400, some 300, none, none⟩] := by
    simp only [updateGraph, hch, if_true]
    norm_num [List.enum, List.enumFrom, findPos, lookupNode, List.find?,
      List.reverse, List.reverseAux,
      (show (("A" : String) == "B") = false by decide),
      (show (("B" : String) == "A") = false by decide)]
  refine ⟨hch, ?_, ?_⟩
  · exact hmain.1 ⟨"A", "t", [], some 10, some 20, some 0, some 0⟩
      (List.mem_singleton_self _) 10 rfl
      ⟨"A", "t", [], some 10, some 20, some 0, some 0⟩
      (by rw [hres]; exact List.mem_cons_self _ _) rfl
  · exact hmain.2.2 ⟨"B", "u", [], some 400, some 300, none, none⟩
      (by rw [hres]; exact List.mem_cons_of_mem _ (List.mem_cons_self _ _))

end KB
